import Mathlib

/-!
Shallow embedding of `src/optedit.cc` (repository snogglethorpe/optedit).

The source file holds two observed variants of the same program:

* variant 1 (lines 1-153): objective Minimize (strict `<` comparisons in the
  recurrence), `Edit` carries both a source and a target character, the
  backtrace reads `edit_matrix[to_idx][from_idx]`, and rendering goes through
  `edit_rep`;
* variant 2 (lines 154-282, after the separator): objective Maximize (strict
  `>` comparisons), `Edit` carries a single character, the backtrace reads
  `edit_matrix[to_idx + 1][from_idx + 1]`, and `main` prints the tag and the
  single stored character.

Both variants are embedded below, variant 2 under names suffixed `2`.

C++ `unsigned` arithmetic is modelled on `Nat` with an explicit `% 2 ^ 32`
(`uadd`, `usub`, `umul`, `udec`).  The index arithmetic of the recurrence and
of the backtrace cursor always uses it.  For the cell costs the development
carries two models side by side: `edit_matrix` / `edit_matrix2` accumulate
costs over unbounded `Nat` (exact arithmetic — the idealization in which the
spec's cost identities are stated), while `edit_matrixU` / `edit_matrix2U`
wrap every cost accumulation modulo `2 ^ 32` exactly as the program's
`unsigned cost` does; `matU_eq_mat` and `mat2U_eq_mat2` prove the two agree
as long as no accumulated cost can reach `2 ^ 32`.  Claims that quantify
over every cost model (C3, C8) are settled against the wrapped model.
Strings are `List Char`; the theorems that depend on cursor arithmetic carry
the (physically true) hypothesis that the input lengths are below `2 ^ 32`,
under which the `size_t` to `unsigned` conversion of `from.length ()` is the
identity.

The C++ edit matrix is a `std::vector` of rows sized `(to_length + 1) ×
(from_length + 1)`; reading it out of that range is undefined behaviour.  We
model a read through `matRead` / `matRead2`, which returns `none` outside the
allocated range, and the `while` backtrace loop with an explicit fuel of
`to_length + from_length` (an upper bound on the iteration count whenever the
loop terminates; a run that would loop longer, or that reads out of range, is
modelled as `none`).
-/

namespace Optedit

/-- `enum EditType { SKIP = 0, DELETE = 1, INSERT = 2, REPLACE = 3 }`. -/
inductive EditType where
  | SKIP
  | DELETE
  | INSERT
  | REPLACE
deriving DecidableEq

/-- `typedef std::array<unsigned, 4> EditCosts;` with one field per
`EditType` index. -/
structure EditCosts where
  skip : Nat
  del : Nat
  ins : Nat
  rep : Nat
deriving DecidableEq

/-- `costs[t]`: indexing the cost array by an `EditType`. -/
def EditCosts.get (c : EditCosts) : EditType → Nat
  | .SKIP => c.skip
  | .DELETE => c.del
  | .INSERT => c.ins
  | .REPLACE => c.rep

/-- Variant 1: `EditCosts std_edit_costs { 1, 10, 15, 5 };`. -/
def std_edit_costs : EditCosts := ⟨1, 10, 15, 5⟩

/-- Variant 2: `EditCosts std_edit_costs { 1, 10, 10, 2 };`. -/
def std_edit_costs2 : EditCosts := ⟨1, 10, 10, 2⟩

/-- `const char *edit_type_names[4] = { "SKP", "DEL", "INS", "REP" };`. -/
def edit_type_name : EditType → String
  | .SKIP => "SKP"
  | .DELETE => "DEL"
  | .INSERT => "INS"
  | .REPLACE => "REP"

/-- The `char` value `0`, used by the source as the sentinel character. -/
def nul : Char := Char.ofNat 0

/-- Variant 1's `struct Edit { EditType type; char from_ch, to_ch; }`. -/
structure Edit where
  type : EditType
  from_ch : Char
  to_ch : Char
deriving DecidableEq

/-- Variant 2's `struct Edit { EditType type; char ch; }`. -/
structure Edit2 where
  type : EditType
  ch : Char
deriving DecidableEq

/-- Variant 1's `edit_rep`: the tag, then (unless `INSERT`) a space and
`from_ch`, then (unless `DELETE` or `SKIP`) a space and `to_ch`. -/
def edit_rep (edit : Edit) : String :=
  let rep := edit_type_name edit.type
  let rep := if edit.type ≠ EditType.INSERT then (rep.push ' ').push edit.from_ch else rep
  let rep := if edit.type ≠ EditType.DELETE ∧ edit.type ≠ EditType.SKIP
             then (rep.push ' ').push edit.to_ch else rep
  rep

/-- Variant 1's `main` loop body: one output line per edit. -/
def program_output (edits : List Edit) : List String :=
  edits.map edit_rep

/-- Variant 2's `main` loop body:
`std::cout << edit_type_names[edit.type] << " " << edit.ch`. -/
def edit_line2 (edit : Edit2) : String :=
  ((edit_type_name edit.type).push ' ').push edit.ch

/-- Variant 2's `main` loop: one output line per edit. -/
def program_output2 (edits : List Edit2) : List String :=
  edits.map edit_line2

/-- Variant 1's local `struct EditNode { Edit edit; unsigned cost; }`. -/
structure EditNode where
  edit : Edit
  cost : Nat
deriving DecidableEq

/-- Variant 2's local `EditNode`, over the one-character `Edit`. -/
structure EditNode2 where
  edit : Edit2
  cost : Nat
deriving DecidableEq

/-- Variant 1's selection chain (lines 96-112): `INSERT` wins only when
strictly below both alternatives, then `DELETE` wins when strictly below the
replace/skip candidate, otherwise the replace/skip candidate wins. -/
def chooseMin (ins_cost del_cost rep_cost : Nat) (rep_type : EditType) : EditType × Nat :=
  if ins_cost < del_cost ∧ ins_cost < rep_cost then (EditType.INSERT, ins_cost)
  else if del_cost < rep_cost then (EditType.DELETE, del_cost)
  else (rep_type, rep_cost)

/-- Variant 2's selection chain (lines 226-242): same shape with `>`. -/
def chooseMax (ins_cost del_cost rep_cost : Nat) (rep_type : EditType) : EditType × Nat :=
  if ins_cost > del_cost ∧ ins_cost > rep_cost then (EditType.INSERT, ins_cost)
  else if del_cost > rep_cost then (EditType.DELETE, del_cost)
  else (rep_type, rep_cost)

/-- Variant 1, row 0 (lines 63-73): the default-constructed `EditNode` at
column 0, and `EditNode (DELETE, from[from_idx], 0, (from_idx + 1) *
costs[DELETE])` at column `from_idx + 1`. -/
def row0 (costs : EditCosts) (fs : List Char) : Nat → EditNode
  | 0 => ⟨⟨EditType.SKIP, nul, nul⟩, 0⟩
  | j + 1 => ⟨⟨EditType.DELETE, fs.getD j nul, nul⟩, (j + 1) * costs.get EditType.DELETE⟩

/-- Variant 1, one row of the scan (lines 79-117): column 0 is
`EditNode (INSERT, 0, to[to_idx], (to_idx + 1) * costs[INSERT])`; each later
column takes the best of the three predecessors via `chooseMin` and stores
both current characters. -/
def nextRow (costs : EditCosts) (fs : List Char) (tc : Char) (rowIdx : Nat)
    (prev : Nat → EditNode) : Nat → EditNode
  | 0 => ⟨⟨EditType.INSERT, nul, tc⟩, rowIdx * costs.get EditType.INSERT⟩
  | j + 1 =>
    let fc := fs.getD j nul
    let rep_type := if fc = tc then EditType.SKIP else EditType.REPLACE
    let ins_cost := (prev (j + 1)).cost + costs.get EditType.INSERT
    let del_cost := (nextRow costs fs tc rowIdx prev j).cost + costs.get EditType.DELETE
    let rep_cost := (prev j).cost + costs.get rep_type
    let r := chooseMin ins_cost del_cost rep_cost rep_type
    ⟨⟨r.1, fc, tc⟩, r.2⟩

/-- Variant 1's fully built matrix, row by row as the source computes it;
`edit_matrix costs fs ts i j` is the cell at row `i` (target index) and
column `j` (source index). -/
def edit_matrix (costs : EditCosts) (fs ts : List Char) : Nat → Nat → EditNode
  | 0 => row0 costs fs
  | i + 1 => nextRow costs fs (ts.getD i nul) (i + 1) (edit_matrix costs fs ts i)

/-- Variant 2, row 0 (line 204): `EditNode (DELETE, 0, (from_idx + 1) *
costs[DELETE])` — the deleted source character is not stored. -/
def row0v2 (costs : EditCosts) : Nat → EditNode2
  | 0 => ⟨⟨EditType.SKIP, nul⟩, 0⟩
  | j + 1 => ⟨⟨EditType.DELETE, nul⟩, (j + 1) * costs.get EditType.DELETE⟩

/-- Variant 2, one row of the scan (lines 210-246): column 0 is
`EditNode (INSERT, to[to_idx], (to_idx + 1) * costs[INSERT])`; each later
column takes the costliest of the three predecessors via `chooseMax` and
stores `to[to_idx]` whatever the chosen type is (line 244). -/
def nextRowv2 (costs : EditCosts) (fs : List Char) (tc : Char) (rowIdx : Nat)
    (prev : Nat → EditNode2) : Nat → EditNode2
  | 0 => ⟨⟨EditType.INSERT, tc⟩, rowIdx * costs.get EditType.INSERT⟩
  | j + 1 =>
    let fc := fs.getD j nul
    let rep_type := if fc = tc then EditType.SKIP else EditType.REPLACE
    let ins_cost := (prev (j + 1)).cost + costs.get EditType.INSERT
    let del_cost := (nextRowv2 costs fs tc rowIdx prev j).cost + costs.get EditType.DELETE
    let rep_cost := (prev j).cost + costs.get rep_type
    let r := chooseMax ins_cost del_cost rep_cost rep_type
    ⟨⟨r.1, tc⟩, r.2⟩

/-- Variant 2's fully built matrix. -/
def edit_matrix2 (costs : EditCosts) (fs ts : List Char) : Nat → Nat → EditNode2
  | 0 => row0v2 costs
  | i + 1 => nextRowv2 costs fs (ts.getD i nul) (i + 1) (edit_matrix2 costs fs ts i)

/-- Variant 1's matrix is a vector of `to_length + 1` rows of
`from_length + 1` cells; indexing it inside that range yields the cell,
outside it is undefined behaviour, modelled as `none`. -/
def matRead (costs : EditCosts) (fs ts : List Char) (i j : Nat) : Option EditNode :=
  if i ≤ ts.length ∧ j ≤ fs.length then some (edit_matrix costs fs ts i j) else none

/-- Variant 2's matrix read, with the same allocated range. -/
def matRead2 (costs : EditCosts) (fs ts : List Char) (i j : Nat) : Option EditNode2 :=
  if i ≤ ts.length ∧ j ≤ fs.length then some (edit_matrix2 costs fs ts i j) else none

/-- 32-bit unsigned addition. -/
def uadd (x y : Nat) : Nat := (x + y) % 2 ^ 32

/-- 32-bit unsigned subtraction (for `y ≤ 2 ^ 32`). -/
def usub (x y : Nat) : Nat := (x + 2 ^ 32 - y) % 2 ^ 32

/-- 32-bit unsigned multiplication. -/
def umul (x y : Nat) : Nat := (x * y) % 2 ^ 32

/-- The `--` decrement of an `unsigned` cursor: `0` wraps to `2 ^ 32 - 1`. -/
def udec (x : Nat) : Nat := usub x 1

/-- The backtrace loop shared by both variants (variant 1 lines 123-133,
variant 2 lines 252-262): while the cursor is not `(0, 0)`, read the cell the
variant's `read` designates, `push_front` its edit, and decrement `from_idx`
unless the edit is an `INSERT` and `to_idx` unless it is a `DELETE`.  The two
variants differ only in `read` (the cell index used) and in the edit type
carried.  `fuel` bounds the number of iterations; the C++ loop has no such
bound, and a run that would exceed the fuel — possible only for a malformed
matrix, in which case the C++ cursor has wrapped around and left the
allocated range — is modelled as `none`, like an out-of-range read. -/
def backtrace {α : Type} (kind : α → EditType) (read : Nat → Nat → Option α) :
    Nat → Nat → Nat → List α → Option (List α)
  | 0, to_idx, from_idx, acc =>
    if to_idx = 0 ∧ from_idx = 0 then some acc else none
  | fuel + 1, to_idx, from_idx, acc =>
    if to_idx = 0 ∧ from_idx = 0 then some acc
    else
      match read to_idx from_idx with
      | none => none
      | some e =>
        backtrace kind read fuel
          (if kind e ≠ EditType.DELETE then udec to_idx else to_idx)
          (if kind e ≠ EditType.INSERT then udec from_idx else from_idx)
          (e :: acc)

/-- Variant 1's backtrace read, line 127:
`edit_matrix[to_idx][from_idx].edit`. -/
def readV1 (costs : EditCosts) (fs ts : List Char) (to_idx from_idx : Nat) : Option Edit :=
  (matRead costs fs ts to_idx from_idx).map (fun n => n.edit)

/-- Variant 2's backtrace read, line 256:
`edit_matrix[to_idx + 1][from_idx + 1].edit`. -/
def readV2 (costs : EditCosts) (fs ts : List Char) (to_idx from_idx : Nat) : Option Edit2 :=
  (matRead2 costs fs ts (to_idx + 1) (from_idx + 1)).map (fun n => n.edit)

/-- Variant 1's `compute_optimal_edits`: build the matrix, then replay from
`(to_length, from_length)` reading `edit_matrix[to_idx][from_idx]`. -/
def compute_optimal_edits (fs ts : List Char) (costs : EditCosts) : Option (List Edit) :=
  backtrace Edit.type (readV1 costs fs ts) (ts.length + fs.length) ts.length fs.length []

/-- Variant 2's `compute_optimal_edits`: same replay, but reading
`edit_matrix[to_idx + 1][from_idx + 1]`. -/
def compute_optimal_edits2 (fs ts : List Char) (costs : EditCosts) : Option (List Edit2) :=
  backtrace Edit2.type (readV2 costs fs ts) (ts.length + fs.length) ts.length fs.length []

/-- The configured cost of each emitted operation, summed. -/
def sumCost (costs : EditCosts) (l : List Edit) : Nat :=
  (l.map (fun e => costs.get e.type)).sum

/-- The total configured cost of variant 1's returned alignment. -/
def total_cost (fs ts : List Char) (costs : EditCosts) : Option Nat :=
  (compute_optimal_edits fs ts costs).map (sumCost costs)

/-- An `EditCosts` value representable by the program's
`std::array<unsigned, 4>`: each entry fits in 32 bits. -/
def EditCosts.valid (c : EditCosts) : Prop :=
  c.skip < 2 ^ 32 ∧ c.del < 2 ^ 32 ∧ c.ins < 2 ^ 32 ∧ c.rep < 2 ^ 32

/-- The sum of the four configured costs; `(i + j) * costSum costs` bounds
every exact accumulated cell cost, so `(n + m) * costSum costs < 2 ^ 32`
guarantees the program's `unsigned` accumulation never wraps. -/
def costSum (c : EditCosts) : Nat :=
  c.skip + c.del + c.ins + c.rep

/-- Variant 1, row 0, with the `unsigned` cost product made explicit:
`(from_idx + 1) * costs[DELETE]` wraps modulo `2 ^ 32`. -/
def row0U (costs : EditCosts) (fs : List Char) : Nat → EditNode
  | 0 => ⟨⟨EditType.SKIP, nul, nul⟩, 0⟩
  | j + 1 => ⟨⟨EditType.DELETE, fs.getD j nul, nul⟩, umul (j + 1) (costs.get EditType.DELETE)⟩

/-- Variant 1, one row of the scan, with every `unsigned` cost sum wrapping
modulo `2 ^ 32` as in the program. -/
def nextRowU (costs : EditCosts) (fs : List Char) (tc : Char) (rowIdx : Nat)
    (prev : Nat → EditNode) : Nat → EditNode
  | 0 => ⟨⟨EditType.INSERT, nul, tc⟩, umul rowIdx (costs.get EditType.INSERT)⟩
  | j + 1 =>
    let fc := fs.getD j nul
    let rep_type := if fc = tc then EditType.SKIP else EditType.REPLACE
    let ins_cost := uadd (prev (j + 1)).cost (costs.get EditType.INSERT)
    let del_cost := uadd (nextRowU costs fs tc rowIdx prev j).cost (costs.get EditType.DELETE)
    let rep_cost := uadd (prev j).cost (costs.get rep_type)
    let r := chooseMin ins_cost del_cost rep_cost rep_type
    ⟨⟨r.1, fc, tc⟩, r.2⟩

/-- Variant 1's matrix with the program's wrapped 32-bit cost arithmetic. -/
def edit_matrixU (costs : EditCosts) (fs ts : List Char) : Nat → Nat → EditNode
  | 0 => row0U costs fs
  | i + 1 => nextRowU costs fs (ts.getD i nul) (i + 1) (edit_matrixU costs fs ts i)

/-- Wrapped-cost matrix read, same `(to_length + 1) × (from_length + 1)`
allocation as `matRead`. -/
def matReadU (costs : EditCosts) (fs ts : List Char) (i j : Nat) : Option EditNode :=
  if i ≤ ts.length ∧ j ≤ fs.length then some (edit_matrixU costs fs ts i j) else none

/-- Variant 1's backtrace read over the wrapped-cost matrix. -/
def readU (costs : EditCosts) (fs ts : List Char) (to_idx from_idx : Nat) : Option Edit :=
  (matReadU costs fs ts to_idx from_idx).map (fun n => n.edit)

/-- Variant 1's `compute_optimal_edits` over the wrapped-cost matrix. -/
def compute_optimal_editsU (fs ts : List Char) (costs : EditCosts) : Option (List Edit) :=
  backtrace Edit.type (readU costs fs ts) (ts.length + fs.length) ts.length fs.length []

/-- The exact (mathematical) sum of the configured costs of the alignment
returned by the wrapped-cost run of variant 1. -/
def total_costU (fs ts : List Char) (costs : EditCosts) : Option Nat :=
  (compute_optimal_editsU fs ts costs).map (sumCost costs)

/-- Variant 2, row 0, with the wrapped `unsigned` cost product. -/
def row0v2U (costs : EditCosts) : Nat → EditNode2
  | 0 => ⟨⟨EditType.SKIP, nul⟩, 0⟩
  | j + 1 => ⟨⟨EditType.DELETE, nul⟩, umul (j + 1) (costs.get EditType.DELETE)⟩

/-- Variant 2, one row of the scan, with wrapped cost sums. -/
def nextRowv2U (costs : EditCosts) (fs : List Char) (tc : Char) (rowIdx : Nat)
    (prev : Nat → EditNode2) : Nat → EditNode2
  | 0 => ⟨⟨EditType.INSERT, tc⟩, umul rowIdx (costs.get EditType.INSERT)⟩
  | j + 1 =>
    let fc := fs.getD j nul
    let rep_type := if fc = tc then EditType.SKIP else EditType.REPLACE
    let ins_cost := uadd (prev (j + 1)).cost (costs.get EditType.INSERT)
    let del_cost := uadd (nextRowv2U costs fs tc rowIdx prev j).cost (costs.get EditType.DELETE)
    let rep_cost := uadd (prev j).cost (costs.get rep_type)
    let r := chooseMax ins_cost del_cost rep_cost rep_type
    ⟨⟨r.1, tc⟩, r.2⟩

/-- Variant 2's matrix with the program's wrapped 32-bit cost arithmetic. -/
def edit_matrix2U (costs : EditCosts) (fs ts : List Char) : Nat → Nat → EditNode2
  | 0 => row0v2U costs
  | i + 1 => nextRowv2U costs fs (ts.getD i nul) (i + 1) (edit_matrix2U costs fs ts i)

/-! ## Helper lemmas -/

theorem uadd_usub_one (x : Nat) (h : x < 2 ^ 32) : uadd (usub x 1) 1 = x := by
  unfold uadd usub
  have h32 : (2 : Nat) ^ 32 = 4294967296 := by norm_num
  rw [h32] at *
  omega

theorem udec_eq_sub_one (x : Nat) (h0 : 0 < x) (h : x < 2 ^ 32) : udec x = x - 1 := by
  unfold udec usub
  have h32 : (2 : Nat) ^ 32 = 4294967296 := by norm_num
  rw [h32] at *
  omega

theorem chooseMin_cases (a b c : Nat) (t : EditType) :
    chooseMin a b c t = (EditType.INSERT, a)
    ∨ chooseMin a b c t = (EditType.DELETE, b)
    ∨ chooseMin a b c t = (t, c) := by
  unfold chooseMin
  split_ifs <;> simp

theorem chooseMin_cost (a b c : Nat) (t : EditType) :
    (chooseMin a b c t).2 = min a (min b c) := by
  unfold chooseMin
  split_ifs <;> dsimp only <;> omega

theorem chooseMax_cost (a b c : Nat) (t : EditType) :
    (chooseMax a b c t).2 = max a (max b c) := by
  unfold chooseMax
  split_ifs <;> dsimp only <;> omega

theorem chooseMin_rep_zero (a b : Nat) (t : EditType) :
    chooseMin a b 0 t = (t, 0) := by
  unfold chooseMin
  split_ifs <;> first | rfl | omega

theorem mat_zero_zero (costs : EditCosts) (fs ts : List Char) :
    edit_matrix costs fs ts 0 0 = ⟨⟨EditType.SKIP, nul, nul⟩, 0⟩ := rfl

theorem mat_zero_succ (costs : EditCosts) (fs ts : List Char) (j : Nat) :
    edit_matrix costs fs ts 0 (j + 1)
      = ⟨⟨EditType.DELETE, fs.getD j nul, nul⟩, (j + 1) * costs.get EditType.DELETE⟩ := rfl

theorem mat_succ_zero (costs : EditCosts) (fs ts : List Char) (i : Nat) :
    edit_matrix costs fs ts (i + 1) 0
      = ⟨⟨EditType.INSERT, nul, ts.getD i nul⟩, (i + 1) * costs.get EditType.INSERT⟩ := rfl

theorem mat_row0_cost (costs : EditCosts) (fs ts : List Char) (j : Nat) :
    (edit_matrix costs fs ts 0 j).cost = j * costs.get EditType.DELETE := by
  cases j with
  | zero => exact (Nat.zero_mul _).symm
  | succ j => rfl

theorem mat_col0_cost (costs : EditCosts) (fs ts : List Char) (i : Nat) :
    (edit_matrix costs fs ts i 0).cost = i * costs.get EditType.INSERT := by
  cases i with
  | zero => exact (Nat.zero_mul _).symm
  | succ i => rfl

theorem mat_interior (costs : EditCosts) (fs ts : List Char) (i j : Nat) :
    edit_matrix costs fs ts (i + 1) (j + 1)
      = ⟨⟨(chooseMin ((edit_matrix costs fs ts i (j + 1)).cost + costs.get EditType.INSERT)
            ((edit_matrix costs fs ts (i + 1) j).cost + costs.get EditType.DELETE)
            ((edit_matrix costs fs ts i j).cost
              + costs.get (if fs.getD j nul = ts.getD i nul
                           then EditType.SKIP else EditType.REPLACE))
            (if fs.getD j nul = ts.getD i nul
             then EditType.SKIP else EditType.REPLACE)).1,
          fs.getD j nul, ts.getD i nul⟩,
         (chooseMin ((edit_matrix costs fs ts i (j + 1)).cost + costs.get EditType.INSERT)
            ((edit_matrix costs fs ts (i + 1) j).cost + costs.get EditType.DELETE)
            ((edit_matrix costs fs ts i j).cost
              + costs.get (if fs.getD j nul = ts.getD i nul
                           then EditType.SKIP else EditType.REPLACE))
            (if fs.getD j nul = ts.getD i nul
             then EditType.SKIP else EditType.REPLACE)).2⟩ := rfl

theorem mat_interior_cases (costs : EditCosts) (fs ts : List Char) (i j : Nat) :
    (edit_matrix costs fs ts (i + 1) (j + 1)
        = ⟨⟨EditType.INSERT, fs.getD j nul, ts.getD i nul⟩,
           (edit_matrix costs fs ts i (j + 1)).cost + costs.get EditType.INSERT⟩)
    ∨ (edit_matrix costs fs ts (i + 1) (j + 1)
        = ⟨⟨EditType.DELETE, fs.getD j nul, ts.getD i nul⟩,
           (edit_matrix costs fs ts (i + 1) j).cost + costs.get EditType.DELETE⟩)
    ∨ (∃ rt, (rt = EditType.SKIP ∨ rt = EditType.REPLACE)
        ∧ edit_matrix costs fs ts (i + 1) (j + 1)
          = ⟨⟨rt, fs.getD j nul, ts.getD i nul⟩,
             (edit_matrix costs fs ts i j).cost + costs.get rt⟩) := by
  rw [mat_interior]
  rcases chooseMin_cases ((edit_matrix costs fs ts i (j + 1)).cost + costs.get EditType.INSERT)
      ((edit_matrix costs fs ts (i + 1) j).cost + costs.get EditType.DELETE)
      ((edit_matrix costs fs ts i j).cost
        + costs.get (if fs.getD j nul = ts.getD i nul then EditType.SKIP else EditType.REPLACE))
      (if fs.getD j nul = ts.getD i nul then EditType.SKIP else EditType.REPLACE)
    with h | h | h
  · exact Or.inl (by rw [h])
  · exact Or.inr (Or.inl (by rw [h]))
  · refine Or.inr (Or.inr ⟨_, ?_, by rw [h]⟩)
    split_ifs <;> simp

theorem backtrace_done {α : Type} (kind : α → EditType) (read : Nat → Nat → Option α)
    (fuel : Nat) (acc : List α) :
    backtrace kind read fuel 0 0 acc = some acc := by
  cases fuel <;> rfl

theorem backtrace_step {α : Type} (kind : α → EditType) (read : Nat → Nat → Option α)
    (f to_idx from_idx : Nat) (acc : List α) (e : α)
    (hne : ¬(to_idx = 0 ∧ from_idx = 0)) (hr : read to_idx from_idx = some e) :
    backtrace kind read (f + 1) to_idx from_idx acc
      = backtrace kind read f
          (if kind e ≠ EditType.DELETE then udec to_idx else to_idx)
          (if kind e ≠ EditType.INSERT then udec from_idx else from_idx)
          (e :: acc) := by
  conv_lhs => rw [backtrace]
  rw [if_neg hne, hr]

theorem Edit_mk_type (t : EditType) (a b : Char) : (⟨t, a, b⟩ : Edit).type = t := rfl

theorem sumCost_append (costs : EditCosts) (l1 l2 : List Edit) :
    sumCost costs (l1 ++ l2) = sumCost costs l1 + sumCost costs l2 := by
  simp [sumCost]

theorem sumCost_single (costs : EditCosts) (e : Edit) :
    sumCost costs [e] = costs.get e.type := by
  simp [sumCost]

/-- The central invariant of the minimize variant's backtrace: started inside
the matrix with fuel at least `i + j`, it succeeds, the emitted operations
cost exactly the starting cell's accumulated cost, and exactly `j` of them
are not inserts and exactly `i` not deletes. -/
theorem backtrace_spec (costs : EditCosts) (fs ts : List Char)
    (hm : fs.length < 2 ^ 32) (hn : ts.length < 2 ^ 32) :
    ∀ (fuel i j : Nat) (acc : List Edit), i + j ≤ fuel → i ≤ ts.length → j ≤ fs.length →
      ∃ l, backtrace Edit.type (readV1 costs fs ts) fuel i j acc = some (l ++ acc)
        ∧ sumCost costs l = (edit_matrix costs fs ts i j).cost
        ∧ (l.filter (fun e => e.type ≠ EditType.INSERT)).length = j
        ∧ (l.filter (fun e => e.type ≠ EditType.DELETE)).length = i := by
  intro fuel
  induction fuel with
  | zero =>
    intro i j acc hfuel hi hj
    have hi0 : i = 0 := by omega
    have hj0 : j = 0 := by omega
    subst hi0; subst hj0
    exact ⟨[], backtrace_done _ _ _ _, rfl, rfl, rfl⟩
  | succ f ih =>
    intro i j acc hfuel hi hj
    match i, j with
    | 0, 0 => exact ⟨[], backtrace_done _ _ _ _, rfl, rfl, rfl⟩
    | 0, j + 1 =>
      have hr : readV1 costs fs ts 0 (j + 1)
          = some ⟨EditType.DELETE, fs.getD j nul, nul⟩ := by
        unfold readV1 matRead
        rw [if_pos ⟨Nat.zero_le _, hj⟩, mat_zero_succ]
        rfl
      have hstep := backtrace_step Edit.type (readV1 costs fs ts) f 0 (j + 1) acc _ (by omega) hr
      have hud : udec (j + 1) = j := by
        rw [udec_eq_sub_one _ (Nat.succ_pos _) (lt_of_le_of_lt hj hm)]
        omega
      simp only [Edit_mk_type] at hstep
      have hc1 : ¬(EditType.DELETE ≠ EditType.DELETE) := by decide
      have hc2 : EditType.DELETE ≠ EditType.INSERT := by decide
      rw [if_neg hc1, if_pos hc2, hud] at hstep
      obtain ⟨l2, hbt, hsum, hfi, hfd⟩ :=
        ih 0 j (⟨EditType.DELETE, fs.getD j nul, nul⟩ :: acc) (by omega) hi (by omega)
      refine ⟨l2 ++ [⟨EditType.DELETE, fs.getD j nul, nul⟩], ?_, ?_, ?_, ?_⟩
      · rw [hstep, hbt, List.append_assoc]
        rfl
      · rw [sumCost_append, hsum, sumCost_single, mat_row0_cost, mat_row0_cost]
        show j * costs.get EditType.DELETE + costs.get EditType.DELETE
          = (j + 1) * costs.get EditType.DELETE
        ring
      · rw [List.filter_append, List.length_append, hfi]
        simp
      · rw [List.filter_append, List.length_append, hfd]
        simp
    | i + 1, 0 =>
      have hr : readV1 costs fs ts (i + 1) 0
          = some ⟨EditType.INSERT, nul, ts.getD i nul⟩ := by
        unfold readV1 matRead
        rw [if_pos ⟨hi, Nat.zero_le _⟩, mat_succ_zero]
        rfl
      have hstep := backtrace_step Edit.type (readV1 costs fs ts) f (i + 1) 0 acc _ (by omega) hr
      have hud : udec (i + 1) = i := by
        rw [udec_eq_sub_one _ (Nat.succ_pos _) (lt_of_le_of_lt hi hn)]
        omega
      simp only [Edit_mk_type] at hstep
      have hc1 : EditType.INSERT ≠ EditType.DELETE := by decide
      have hc2 : ¬(EditType.INSERT ≠ EditType.INSERT) := by decide
      rw [if_pos hc1, if_neg hc2, hud] at hstep
      obtain ⟨l2, hbt, hsum, hfi, hfd⟩ :=
        ih i 0 (⟨EditType.INSERT, nul, ts.getD i nul⟩ :: acc) (by omega) (by omega) hj
      refine ⟨l2 ++ [⟨EditType.INSERT, nul, ts.getD i nul⟩], ?_, ?_, ?_, ?_⟩
      · rw [hstep, hbt, List.append_assoc]
        rfl
      · rw [sumCost_append, hsum, sumCost_single, mat_col0_cost, mat_col0_cost]
        show i * costs.get EditType.INSERT + costs.get EditType.INSERT
          = (i + 1) * costs.get EditType.INSERT
        ring
      · rw [List.filter_append, List.length_append, hfi]
        simp
      · rw [List.filter_append, List.length_append, hfd]
        simp
    | i + 1, j + 1 =>
      have hudj : udec (j + 1) = j := by
        rw [udec_eq_sub_one _ (Nat.succ_pos _) (lt_of_le_of_lt hj hm)]
        omega
      have hudi : udec (i + 1) = i := by
        rw [udec_eq_sub_one _ (Nat.succ_pos _) (lt_of_le_of_lt hi hn)]
        omega
      rcases mat_interior_cases costs fs ts i j with hcell | hcell | ⟨rt, hrt, hcell⟩
      · -- the cell chose INSERT
        have hr : readV1 costs fs ts (i + 1) (j + 1)
            = some ⟨EditType.INSERT, fs.getD j nul, ts.getD i nul⟩ := by
          unfold readV1 matRead
          rw [if_pos ⟨hi, hj⟩, hcell]
          rfl
        have hstep := backtrace_step Edit.type (readV1 costs fs ts) f (i + 1) (j + 1) acc _ (by omega) hr
        simp only [Edit_mk_type] at hstep
        have hc1 : EditType.INSERT ≠ EditType.DELETE := by decide
        have hc2 : ¬(EditType.INSERT ≠ EditType.INSERT) := by decide
        rw [if_pos hc1, if_neg hc2, hudi] at hstep
        obtain ⟨l2, hbt, hsum, hfi, hfd⟩ :=
          ih i (j + 1) (⟨EditType.INSERT, fs.getD j nul, ts.getD i nul⟩ :: acc)
            (by omega) (by omega) hj
        refine ⟨l2 ++ [⟨EditType.INSERT, fs.getD j nul, ts.getD i nul⟩], ?_, ?_, ?_, ?_⟩
        · rw [hstep, hbt, List.append_assoc]
          rfl
        · rw [sumCost_append, hsum, sumCost_single, hcell]
        · rw [List.filter_append, List.length_append, hfi]
          simp
        · rw [List.filter_append, List.length_append, hfd]
          simp
      · -- the cell chose DELETE
        have hr : readV1 costs fs ts (i + 1) (j + 1)
            = some ⟨EditType.DELETE, fs.getD j nul, ts.getD i nul⟩ := by
          unfold readV1 matRead
          rw [if_pos ⟨hi, hj⟩, hcell]
          rfl
        have hstep := backtrace_step Edit.type (readV1 costs fs ts) f (i + 1) (j + 1) acc _ (by omega) hr
        simp only [Edit_mk_type] at hstep
        have hc1 : ¬(EditType.DELETE ≠ EditType.DELETE) := by decide
        have hc2 : EditType.DELETE ≠ EditType.INSERT := by decide
        rw [if_neg hc1, if_pos hc2, hudj] at hstep
        obtain ⟨l2, hbt, hsum, hfi, hfd⟩ :=
          ih (i + 1) j (⟨EditType.DELETE, fs.getD j nul, ts.getD i nul⟩ :: acc)
            (by omega) hi (by omega)
        refine ⟨l2 ++ [⟨EditType.DELETE, fs.getD j nul, ts.getD i nul⟩], ?_, ?_, ?_, ?_⟩
        · rw [hstep, hbt, List.append_assoc]
          rfl
        · rw [sumCost_append, hsum, sumCost_single, hcell]
        · rw [List.filter_append, List.length_append, hfi]
          simp
        · rw [List.filter_append, List.length_append, hfd]
          simp
      · -- the cell chose the replace/skip candidate
        have hr : readV1 costs fs ts (i + 1) (j + 1)
            = some ⟨rt, fs.getD j nul, ts.getD i nul⟩ := by
          unfold readV1 matRead
          rw [if_pos ⟨hi, hj⟩, hcell]
          rfl
        have hstep := backtrace_step Edit.type (readV1 costs fs ts) f (i + 1) (j + 1) acc _ (by omega) hr
        have hrt1 : rt ≠ EditType.DELETE := by
          rcases hrt with h | h <;> subst h <;> decide
        have hrt2 : rt ≠ EditType.INSERT := by
          rcases hrt with h | h <;> subst h <;> decide
        simp only [Edit_mk_type] at hstep
        rw [if_pos hrt1, if_pos hrt2, hudi, hudj] at hstep
        obtain ⟨l2, hbt, hsum, hfi, hfd⟩ :=
          ih i j (⟨rt, fs.getD j nul, ts.getD i nul⟩ :: acc) (by omega) (by omega) (by omega)
        refine ⟨l2 ++ [⟨rt, fs.getD j nul, ts.getD i nul⟩], ?_, ?_, ?_, ?_⟩
        · rw [hstep, hbt, List.append_assoc]
          rfl
        · rw [sumCost_append, hsum, sumCost_single, hcell]
        · rw [List.filter_append, List.length_append, hfi]
          simp [hrt2]
        · rw [List.filter_append, List.length_append, hfd]
          simp [hrt1]

theorem EditNode_mk_cost (e : Edit) (n : Nat) : (⟨e, n⟩ : EditNode).cost = n := rfl

/-- Shared corollary of `backtrace_spec`: the minimize variant's total
returned cost is the terminal cell's accumulated cost. -/
theorem total_cost_eq_cell (fs ts : List Char) (costs : EditCosts)
    (hm : fs.length < 2 ^ 32) (hn : ts.length < 2 ^ 32) :
    total_cost fs ts costs = some ((edit_matrix costs fs ts ts.length fs.length).cost) := by
  obtain ⟨l, hbt, hsum, h1, h2⟩ :=
    backtrace_spec costs fs ts hm hn (ts.length + fs.length) ts.length fs.length []
      (le_refl _) (le_refl _) (le_refl _)
  unfold total_cost compute_optimal_edits
  rw [hbt]
  show some (sumCost costs (l ++ [])) = _
  rw [List.append_nil, hsum]

/-- Shared corollary of `backtrace_spec`: operation counts of the minimize
variant's returned alignment. -/
theorem length_conservation (fs ts : List Char) (costs : EditCosts)
    (hm : fs.length < 2 ^ 32) (hn : ts.length < 2 ^ 32) :
    ∃ l, compute_optimal_edits fs ts costs = some l
      ∧ (l.filter (fun e => e.type ≠ EditType.INSERT)).length = fs.length
      ∧ (l.filter (fun e => e.type ≠ EditType.DELETE)).length = ts.length := by
  obtain ⟨l, hbt, hsum, h1, h2⟩ :=
    backtrace_spec costs fs ts hm hn (ts.length + fs.length) ts.length fs.length []
      (le_refl _) (le_refl _) (le_refl _)
  refine ⟨l, ?_, h1, h2⟩
  unfold compute_optimal_edits
  rw [hbt, List.append_nil]

theorem mat_diag_cost_zero (costs : EditCosts) (s : List Char)
    (h0 : costs.get EditType.SKIP = 0) :
    ∀ i, (edit_matrix costs s s i i).cost = 0 := by
  intro i
  induction i with
  | zero => rfl
  | succ i ih =>
    rw [mat_interior]
    have hc : (if s.getD i nul = s.getD i nul then EditType.SKIP else EditType.REPLACE)
        = EditType.SKIP := if_pos rfl
    rw [hc, EditNode_mk_cost, ih, h0]
    simp [chooseMin_rep_zero]

theorem mat_diag_skip (costs : EditCosts) (s : List Char)
    (h0 : costs.get EditType.SKIP = 0) (i : Nat) :
    edit_matrix costs s s (i + 1) (i + 1)
      = ⟨⟨EditType.SKIP, s.getD i nul, s.getD i nul⟩, 0⟩ := by
  rw [mat_interior]
  have hc : (if s.getD i nul = s.getD i nul then EditType.SKIP else EditType.REPLACE)
      = EditType.SKIP := if_pos rfl
  rw [hc, mat_diag_cost_zero costs s h0 i, h0]
  simp [chooseMin_rep_zero]

/-- Aligning a sequence with itself when `cost(Skip) = 0`: the backtrace
walks the diagonal and emits one `Skip` per symbol. -/
theorem backtrace_diag (costs : EditCosts) (s : List Char)
    (h0 : costs.get EditType.SKIP = 0) (hs : s.length < 2 ^ 32) :
    ∀ (k fuel : Nat) (acc : List Edit), k ≤ s.length → k ≤ fuel →
      backtrace Edit.type (readV1 costs s s) fuel k k acc
        = some ((s.take k).map (fun c => ⟨EditType.SKIP, c, c⟩) ++ acc) := by
  intro k
  induction k with
  | zero =>
    intro fuel acc _ _
    rw [backtrace_done]
    simp
  | succ k ih =>
    intro fuel acc hk hfuel
    match fuel, hfuel with
    | f + 1, _ =>
      have hr : readV1 costs s s (k + 1) (k + 1)
          = some ⟨EditType.SKIP, s.getD k nul, s.getD k nul⟩ := by
        unfold readV1 matRead
        rw [if_pos ⟨hk, hk⟩, mat_diag_skip costs s h0 k]
        rfl
      have hstep := backtrace_step Edit.type (readV1 costs s s) f (k + 1) (k + 1) acc _
        (by omega) hr
      have hud : udec (k + 1) = k := by
        rw [udec_eq_sub_one _ (Nat.succ_pos _) (lt_of_le_of_lt hk hs)]
        omega
      simp only [Edit_mk_type] at hstep
      have hc1 : EditType.SKIP ≠ EditType.DELETE := by decide
      have hc2 : EditType.SKIP ≠ EditType.INSERT := by decide
      rw [if_pos hc1, if_pos hc2, hud] at hstep
      have hklt : k < s.length := hk
      have htake : s.take (k + 1) = s.take k ++ [s.getD k nul] := by
        rw [List.take_succ, List.getElem?_eq_getElem hklt, List.getD_eq_getElem s nul hklt]
        rfl
      rw [hstep, ih f (⟨EditType.SKIP, s.getD k nul, s.getD k nul⟩ :: acc) (by omega) (by omega),
        htake, List.map_append, List.append_assoc]
      rfl

theorem mat_cost_mono (fs ts : List Char) (c c2 : EditCosts)
    (hskip : c.skip = c2.skip) (hdel : c.del = c2.del) (hins : c.ins = c2.ins)
    (hrep : c.rep ≤ c2.rep) :
    ∀ i j, (edit_matrix c fs ts i j).cost ≤ (edit_matrix c2 fs ts i j).cost := by
  have hd : c.get EditType.DELETE = c2.get EditType.DELETE := hdel
  have hi : c.get EditType.INSERT = c2.get EditType.INSERT := hins
  intro i
  induction i with
  | zero =>
    intro j
    rw [mat_row0_cost, mat_row0_cost, hd]
  | succ i ihi =>
    intro j
    induction j with
    | zero =>
      rw [mat_col0_cost, mat_col0_cost, hi]
    | succ j ihj =>
      simp only [mat_interior, EditNode_mk_cost, chooseMin_cost]
      have h4 : c.get (if fs.getD j nul = ts.getD i nul
            then EditType.SKIP else EditType.REPLACE)
          ≤ c2.get (if fs.getD j nul = ts.getD i nul
            then EditType.SKIP else EditType.REPLACE) := by
        split_ifs
        · exact le_of_eq hskip
        · exact hrep
      exact min_le_min (Nat.add_le_add (ihi (j + 1)) (le_of_eq hi))
        (min_le_min (Nat.add_le_add ihj (le_of_eq hd))
          (Nat.add_le_add (ihi j) h4))

theorem EditNode2_mk_cost (e : Edit2) (n : Nat) : (⟨e, n⟩ : EditNode2).cost = n := rfl

theorem mat2_row0_cost (costs : EditCosts) (fs ts : List Char) (j : Nat) :
    (edit_matrix2 costs fs ts 0 j).cost = j * costs.get EditType.DELETE := by
  cases j with
  | zero => exact (Nat.zero_mul _).symm
  | succ j => rfl

theorem mat2_col0_cost (costs : EditCosts) (fs ts : List Char) (i : Nat) :
    (edit_matrix2 costs fs ts i 0).cost = i * costs.get EditType.INSERT := by
  cases i with
  | zero => exact (Nat.zero_mul _).symm
  | succ i => rfl

theorem mat2_interior (costs : EditCosts) (fs ts : List Char) (i j : Nat) :
    edit_matrix2 costs fs ts (i + 1) (j + 1)
      = ⟨⟨(chooseMax ((edit_matrix2 costs fs ts i (j + 1)).cost + costs.get EditType.INSERT)
            ((edit_matrix2 costs fs ts (i + 1) j).cost + costs.get EditType.DELETE)
            ((edit_matrix2 costs fs ts i j).cost
              + costs.get (if fs.getD j nul = ts.getD i nul
                           then EditType.SKIP else EditType.REPLACE))
            (if fs.getD j nul = ts.getD i nul
             then EditType.SKIP else EditType.REPLACE)).1,
          ts.getD i nul⟩,
         (chooseMax ((edit_matrix2 costs fs ts i (j + 1)).cost + costs.get EditType.INSERT)
            ((edit_matrix2 costs fs ts (i + 1) j).cost + costs.get EditType.DELETE)
            ((edit_matrix2 costs fs ts i j).cost
              + costs.get (if fs.getD j nul = ts.getD i nul
                           then EditType.SKIP else EditType.REPLACE))
            (if fs.getD j nul = ts.getD i nul
             then EditType.SKIP else EditType.REPLACE)).2⟩ := rfl

theorem mat2_cost_mono (fs ts : List Char) (c c2 : EditCosts)
    (hskip : c.skip = c2.skip) (hdel : c.del = c2.del) (hins : c.ins = c2.ins)
    (hrep : c.rep ≤ c2.rep) :
    ∀ i j, (edit_matrix2 c fs ts i j).cost ≤ (edit_matrix2 c2 fs ts i j).cost := by
  have hd : c.get EditType.DELETE = c2.get EditType.DELETE := hdel
  have hi : c.get EditType.INSERT = c2.get EditType.INSERT := hins
  intro i
  induction i with
  | zero =>
    intro j
    rw [mat2_row0_cost, mat2_row0_cost, hd]
  | succ i ihi =>
    intro j
    induction j with
    | zero =>
      rw [mat2_col0_cost, mat2_col0_cost, hi]
    | succ j ihj =>
      simp only [mat2_interior, EditNode2_mk_cost, chooseMax_cost]
      have h4 : c.get (if fs.getD j nul = ts.getD i nul
            then EditType.SKIP else EditType.REPLACE)
          ≤ c2.get (if fs.getD j nul = ts.getD i nul
            then EditType.SKIP else EditType.REPLACE) := by
        split_ifs
        · exact le_of_eq hskip
        · exact hrep
      exact max_le_max (Nat.add_le_add (ihi (j + 1)) (le_of_eq hi))
        (max_le_max (Nat.add_le_add ihj (le_of_eq hd))
          (Nat.add_le_add (ihi j) h4))

theorem matU_zero_succ (costs : EditCosts) (fs ts : List Char) (j : Nat) :
    edit_matrixU costs fs ts 0 (j + 1)
      = ⟨⟨EditType.DELETE, fs.getD j nul, nul⟩,
         umul (j + 1) (costs.get EditType.DELETE)⟩ := rfl

theorem matU_succ_zero (costs : EditCosts) (fs ts : List Char) (i : Nat) :
    edit_matrixU costs fs ts (i + 1) 0
      = ⟨⟨EditType.INSERT, nul, ts.getD i nul⟩,
         umul (i + 1) (costs.get EditType.INSERT)⟩ := rfl

theorem matU_row0_cost (costs : EditCosts) (fs ts : List Char) (j : Nat) :
    (edit_matrixU costs fs ts 0 j).cost = umul j (costs.get EditType.DELETE) := by
  cases j with
  | zero =>
    show (0 : Nat) = umul 0 (costs.get EditType.DELETE)
    unfold umul
    simp
  | succ j => rfl

theorem matU_col0_cost (costs : EditCosts) (fs ts : List Char) (i : Nat) :
    (edit_matrixU costs fs ts i 0).cost = umul i (costs.get EditType.INSERT) := by
  cases i with
  | zero =>
    show (0 : Nat) = umul 0 (costs.get EditType.INSERT)
    unfold umul
    simp
  | succ i => rfl

theorem matU_row0_step (costs : EditCosts) (fs ts : List Char) (j : Nat) :
    (edit_matrixU costs fs ts 0 (j + 1)).cost
      = uadd (edit_matrixU costs fs ts 0 j).cost (costs.get EditType.DELETE) := by
  rw [matU_row0_cost, matU_row0_cost]
  unfold umul uadd
  have hN : (2 : Nat) ^ 32 = 4294967296 := by norm_num
  rw [hN]
  have hm2 : (j + 1) * costs.get EditType.DELETE
      = j * costs.get EditType.DELETE + costs.get EditType.DELETE := by ring
  rw [hm2]
  generalize j * costs.get EditType.DELETE = X
  omega

theorem matU_col0_step (costs : EditCosts) (fs ts : List Char) (i : Nat) :
    (edit_matrixU costs fs ts (i + 1) 0).cost
      = uadd (edit_matrixU costs fs ts i 0).cost (costs.get EditType.INSERT) := by
  rw [matU_col0_cost, matU_col0_cost]
  unfold umul uadd
  have hN : (2 : Nat) ^ 32 = 4294967296 := by norm_num
  rw [hN]
  have hm2 : (i + 1) * costs.get EditType.INSERT
      = i * costs.get EditType.INSERT + costs.get EditType.INSERT := by ring
  rw [hm2]
  generalize i * costs.get EditType.INSERT = X
  omega

theorem matU_interior (costs : EditCosts) (fs ts : List Char) (i j : Nat) :
    edit_matrixU costs fs ts (i + 1) (j + 1)
      = ⟨⟨(chooseMin
            (uadd (edit_matrixU costs fs ts i (j + 1)).cost (costs.get EditType.INSERT))
            (uadd (edit_matrixU costs fs ts (i + 1) j).cost (costs.get EditType.DELETE))
            (uadd (edit_matrixU costs fs ts i j).cost
              (costs.get (if fs.getD j nul = ts.getD i nul
                          then EditType.SKIP else EditType.REPLACE)))
            (if fs.getD j nul = ts.getD i nul
             then EditType.SKIP else EditType.REPLACE)).1,
          fs.getD j nul, ts.getD i nul⟩,
         (chooseMin
            (uadd (edit_matrixU costs fs ts i (j + 1)).cost (costs.get EditType.INSERT))
            (uadd (edit_matrixU costs fs ts (i + 1) j).cost (costs.get EditType.DELETE))
            (uadd (edit_matrixU costs fs ts i j).cost
              (costs.get (if fs.getD j nul = ts.getD i nul
                          then EditType.SKIP else EditType.REPLACE)))
            (if fs.getD j nul = ts.getD i nul
             then EditType.SKIP else EditType.REPLACE)).2⟩ := rfl

theorem matU_interior_cases (costs : EditCosts) (fs ts : List Char) (i j : Nat) :
    (edit_matrixU costs fs ts (i + 1) (j + 1)
        = ⟨⟨EditType.INSERT, fs.getD j nul, ts.getD i nul⟩,
           uadd (edit_matrixU costs fs ts i (j + 1)).cost (costs.get EditType.INSERT)⟩)
    ∨ (edit_matrixU costs fs ts (i + 1) (j + 1)
        = ⟨⟨EditType.DELETE, fs.getD j nul, ts.getD i nul⟩,
           uadd (edit_matrixU costs fs ts (i + 1) j).cost (costs.get EditType.DELETE)⟩)
    ∨ (∃ rt, (rt = EditType.SKIP ∨ rt = EditType.REPLACE)
        ∧ edit_matrixU costs fs ts (i + 1) (j + 1)
          = ⟨⟨rt, fs.getD j nul, ts.getD i nul⟩,
             uadd (edit_matrixU costs fs ts i j).cost (costs.get rt)⟩) := by
  rw [matU_interior]
  rcases chooseMin_cases
      (uadd (edit_matrixU costs fs ts i (j + 1)).cost (costs.get EditType.INSERT))
      (uadd (edit_matrixU costs fs ts (i + 1) j).cost (costs.get EditType.DELETE))
      (uadd (edit_matrixU costs fs ts i j).cost
        (costs.get (if fs.getD j nul = ts.getD i nul
                    then EditType.SKIP else EditType.REPLACE)))
      (if fs.getD j nul = ts.getD i nul then EditType.SKIP else EditType.REPLACE)
    with h | h | h
  · exact Or.inl (by rw [h])
  · exact Or.inr (Or.inl (by rw [h]))
  · refine Or.inr (Or.inr ⟨_, ?_, by rw [h]⟩)
    split_ifs <;> simp

/-- Wrapped analogue of `backtrace_spec`: the wrapped-cost run succeeds and
the exact configured-cost sum of the emitted operations, reduced modulo
`2 ^ 32`, equals the starting cell's wrapped accumulated cost. -/
theorem backtrace_specU (costs : EditCosts) (fs ts : List Char)
    (hm : fs.length < 2 ^ 32) (hn : ts.length < 2 ^ 32) :
    ∀ (fuel i j : Nat) (acc : List Edit), i + j ≤ fuel → i ≤ ts.length → j ≤ fs.length →
      ∃ l, backtrace Edit.type (readU costs fs ts) fuel i j acc = some (l ++ acc)
        ∧ sumCost costs l % 2 ^ 32 = (edit_matrixU costs fs ts i j).cost := by
  intro fuel
  induction fuel with
  | zero =>
    intro i j acc hfuel hi hj
    have hi0 : i = 0 := by omega
    have hj0 : j = 0 := by omega
    subst hi0; subst hj0
    exact ⟨[], backtrace_done _ _ _ _, rfl⟩
  | succ f ih =>
    intro i j acc hfuel hi hj
    match i, j with
    | 0, 0 => exact ⟨[], backtrace_done _ _ _ _, rfl⟩
    | 0, j + 1 =>
      have hr : readU costs fs ts 0 (j + 1)
          = some ⟨EditType.DELETE, fs.getD j nul, nul⟩ := by
        unfold readU matReadU
        rw [if_pos ⟨Nat.zero_le _, hj⟩, matU_zero_succ]
        rfl
      have hstep := backtrace_step Edit.type (readU costs fs ts) f 0 (j + 1) acc _
        (by omega) hr
      have hud : udec (j + 1) = j := by
        rw [udec_eq_sub_one _ (Nat.succ_pos _) (lt_of_le_of_lt hj hm)]
        omega
      simp only [Edit_mk_type] at hstep
      have hc1 : ¬(EditType.DELETE ≠ EditType.DELETE) := by decide
      have hc2 : EditType.DELETE ≠ EditType.INSERT := by decide
      rw [if_neg hc1, if_pos hc2, hud] at hstep
      obtain ⟨l2, hbt, hsum⟩ :=
        ih 0 j (⟨EditType.DELETE, fs.getD j nul, nul⟩ :: acc) (by omega) hi (by omega)
      refine ⟨l2 ++ [⟨EditType.DELETE, fs.getD j nul, nul⟩], ?_, ?_⟩
      · rw [hstep, hbt, List.append_assoc]
        rfl
      · rw [sumCost_append, sumCost_single, matU_row0_step]
        simp only [Edit_mk_type]
        unfold uadd
        have hN : (2 : Nat) ^ 32 = 4294967296 := by norm_num
        rw [hN] at hsum ⊢
        omega
    | i + 1, 0 =>
      have hr : readU costs fs ts (i + 1) 0
          = some ⟨EditType.INSERT, nul, ts.getD i nul⟩ := by
        unfold readU matReadU
        rw [if_pos ⟨hi, Nat.zero_le _⟩, matU_succ_zero]
        rfl
      have hstep := backtrace_step Edit.type (readU costs fs ts) f (i + 1) 0 acc _
        (by omega) hr
      have hud : udec (i + 1) = i := by
        rw [udec_eq_sub_one _ (Nat.succ_pos _) (lt_of_le_of_lt hi hn)]
        omega
      simp only [Edit_mk_type] at hstep
      have hc1 : EditType.INSERT ≠ EditType.DELETE := by decide
      have hc2 : ¬(EditType.INSERT ≠ EditType.INSERT) := by decide
      rw [if_pos hc1, if_neg hc2, hud] at hstep
      obtain ⟨l2, hbt, hsum⟩ :=
        ih i 0 (⟨EditType.INSERT, nul, ts.getD i nul⟩ :: acc) (by omega) (by omega) hj
      refine ⟨l2 ++ [⟨EditType.INSERT, nul, ts.getD i nul⟩], ?_, ?_⟩
      · rw [hstep, hbt, List.append_assoc]
        rfl
      · rw [sumCost_append, sumCost_single, matU_col0_step]
        simp only [Edit_mk_type]
        unfold uadd
        have hN : (2 : Nat) ^ 32 = 4294967296 := by norm_num
        rw [hN] at hsum ⊢
        omega
    | i + 1, j + 1 =>
      have hudj : udec (j + 1) = j := by
        rw [udec_eq_sub_one _ (Nat.succ_pos _) (lt_of_le_of_lt hj hm)]
        omega
      have hudi : udec (i + 1) = i := by
        rw [udec_eq_sub_one _ (Nat.succ_pos _) (lt_of_le_of_lt hi hn)]
        omega
      rcases matU_interior_cases costs fs ts i j with hcell | hcell | ⟨rt, hrt, hcell⟩
      · have hr : readU costs fs ts (i + 1) (j + 1)
            = some ⟨EditType.INSERT, fs.getD j nul, ts.getD i nul⟩ := by
          unfold readU matReadU
          rw [if_pos ⟨hi, hj⟩, hcell]
          rfl
        have hstep := backtrace_step Edit.type (readU costs fs ts) f (i + 1) (j + 1) acc _
          (by omega) hr
        simp only [Edit_mk_type] at hstep
        have hc1 : EditType.INSERT ≠ EditType.DELETE := by decide
        have hc2 : ¬(EditType.INSERT ≠ EditType.INSERT) := by decide
        rw [if_pos hc1, if_neg hc2, hudi] at hstep
        obtain ⟨l2, hbt, hsum⟩ :=
          ih i (j + 1) (⟨EditType.INSERT, fs.getD j nul, ts.getD i nul⟩ :: acc)
            (by omega) (by omega) hj
        refine ⟨l2 ++ [⟨EditType.INSERT, fs.getD j nul, ts.getD i nul⟩], ?_, ?_⟩
        · rw [hstep, hbt, List.append_assoc]
          rfl
        · rw [sumCost_append, sumCost_single, hcell, EditNode_mk_cost]
          simp only [Edit_mk_type]
          unfold uadd
          have hN : (2 : Nat) ^ 32 = 4294967296 := by norm_num
          rw [hN] at hsum ⊢
          omega
      · have hr : readU costs fs ts (i + 1) (j + 1)
            = some ⟨EditType.DELETE, fs.getD j nul, ts.getD i nul⟩ := by
          unfold readU matReadU
          rw [if_pos ⟨hi, hj⟩, hcell]
          rfl
        have hstep := backtrace_step Edit.type (readU costs fs ts) f (i + 1) (j + 1) acc _
          (by omega) hr
        simp only [Edit_mk_type] at hstep
        have hc1 : ¬(EditType.DELETE ≠ EditType.DELETE) := by decide
        have hc2 : EditType.DELETE ≠ EditType.INSERT := by decide
        rw [if_neg hc1, if_pos hc2, hudj] at hstep
        obtain ⟨l2, hbt, hsum⟩ :=
          ih (i + 1) j (⟨EditType.DELETE, fs.getD j nul, ts.getD i nul⟩ :: acc)
            (by omega) hi (by omega)
        refine ⟨l2 ++ [⟨EditType.DELETE, fs.getD j nul, ts.getD i nul⟩], ?_, ?_⟩
        · rw [hstep, hbt, List.append_assoc]
          rfl
        · rw [sumCost_append, sumCost_single, hcell, EditNode_mk_cost]
          simp only [Edit_mk_type]
          unfold uadd
          have hN : (2 : Nat) ^ 32 = 4294967296 := by norm_num
          rw [hN] at hsum ⊢
          omega
      · have hr : readU costs fs ts (i + 1) (j + 1)
            = some ⟨rt, fs.getD j nul, ts.getD i nul⟩ := by
          unfold readU matReadU
          rw [if_pos ⟨hi, hj⟩, hcell]
          rfl
        have hstep := backtrace_step Edit.type (readU costs fs ts) f (i + 1) (j + 1) acc _
          (by omega) hr
        have hrt1 : rt ≠ EditType.DELETE := by
          rcases hrt with h | h <;> subst h <;> decide
        have hrt2 : rt ≠ EditType.INSERT := by
          rcases hrt with h | h <;> subst h <;> decide
        simp only [Edit_mk_type] at hstep
        rw [if_pos hrt1, if_pos hrt2, hudi, hudj] at hstep
        obtain ⟨l2, hbt, hsum⟩ :=
          ih i j (⟨rt, fs.getD j nul, ts.getD i nul⟩ :: acc) (by omega) (by omega) (by omega)
        refine ⟨l2 ++ [⟨rt, fs.getD j nul, ts.getD i nul⟩], ?_, ?_⟩
        · rw [hstep, hbt, List.append_assoc]
          rfl
        · rw [sumCost_append, sumCost_single, hcell, EditNode_mk_cost]
          simp only [Edit_mk_type]
          unfold uadd
          have hN : (2 : Nat) ^ 32 = 4294967296 := by norm_num
          rw [hN] at hsum ⊢
          omega

theorem costs_get_del_le (costs : EditCosts) : costs.get EditType.DELETE ≤ costSum costs := by
  show costs.del ≤ _
  unfold costSum
  omega

theorem costs_get_ins_le (costs : EditCosts) : costs.get EditType.INSERT ≤ costSum costs := by
  show costs.ins ≤ _
  unfold costSum
  omega

theorem costs_get_rep_le (costs : EditCosts) (fc tc : Char) :
    costs.get (if fc = tc then EditType.SKIP else EditType.REPLACE) ≤ costSum costs := by
  split_ifs
  · show costs.skip ≤ _
    unfold costSum
    omega
  · show costs.rep ≤ _
    unfold costSum
    omega

/-- Exact accumulated cell costs are bounded by `(i + j) * costSum costs`. -/
theorem mat_cost_le (costs : EditCosts) (fs ts : List Char) :
    ∀ i j, (edit_matrix costs fs ts i j).cost ≤ (i + j) * costSum costs := by
  intro i
  induction i with
  | zero =>
    intro j
    rw [mat_row0_cost, Nat.zero_add]
    exact Nat.mul_le_mul (le_refl j) (costs_get_del_le costs)
  | succ i ihi =>
    intro j
    induction j with
    | zero =>
      rw [mat_col0_cost, Nat.add_zero]
      exact Nat.mul_le_mul (le_refl (i + 1)) (costs_get_ins_le costs)
    | succ j ihj =>
      rw [mat_interior, EditNode_mk_cost, chooseMin_cost]
      refine le_trans (le_trans (min_le_right _ _) (min_le_right _ _)) ?_
      refine le_trans (Nat.add_le_add (ihi j) (costs_get_rep_le costs _ _)) ?_
      refine le_trans (le_of_eq (by ring :
        (i + j) * costSum costs + costSum costs = (i + j + 1) * costSum costs)) ?_
      exact Nat.mul_le_mul (by omega) (le_refl _)

/-- Same bound for the maximize variant's exact cells. -/
theorem mat2_cost_le (costs : EditCosts) (fs ts : List Char) :
    ∀ i j, (edit_matrix2 costs fs ts i j).cost ≤ (i + j) * costSum costs := by
  intro i
  induction i with
  | zero =>
    intro j
    rw [mat2_row0_cost, Nat.zero_add]
    exact Nat.mul_le_mul (le_refl j) (costs_get_del_le costs)
  | succ i ihi =>
    intro j
    induction j with
    | zero =>
      rw [mat2_col0_cost, Nat.add_zero]
      exact Nat.mul_le_mul (le_refl (i + 1)) (costs_get_ins_le costs)
    | succ j ihj =>
      rw [mat2_interior, EditNode2_mk_cost, chooseMax_cost]
      have hA : (edit_matrix2 costs fs ts i (j + 1)).cost + costs.get EditType.INSERT
          ≤ (i + 1 + (j + 1)) * costSum costs := by
        refine le_trans (Nat.add_le_add (ihi (j + 1)) (costs_get_ins_le costs)) ?_
        exact le_of_eq (by ring)
      have hB : (edit_matrix2 costs fs ts (i + 1) j).cost + costs.get EditType.DELETE
          ≤ (i + 1 + (j + 1)) * costSum costs := by
        refine le_trans (Nat.add_le_add ihj (costs_get_del_le costs)) ?_
        exact le_of_eq (by ring)
      have hC : (edit_matrix2 costs fs ts i j).cost
            + costs.get (if fs.getD j nul = ts.getD i nul
                         then EditType.SKIP else EditType.REPLACE)
          ≤ (i + 1 + (j + 1)) * costSum costs := by
        refine le_trans (Nat.add_le_add (ihi j) (costs_get_rep_le costs _ _)) ?_
        refine le_trans (le_of_eq (by ring :
          (i + j) * costSum costs + costSum costs = (i + j + 1) * costSum costs)) ?_
        exact Nat.mul_le_mul (by omega) (le_refl _)
      exact max_le hA (max_le hB hC)

/-- Below the no-overflow bound the wrapped and the exact matrix agree. -/
theorem matU_eq_mat (costs : EditCosts) (fs ts : List Char) :
    ∀ i j, (i + j) * costSum costs < 2 ^ 32 →
      edit_matrixU costs fs ts i j = edit_matrix costs fs ts i j := by
  intro i
  induction i with
  | zero =>
    intro j
    cases j with
    | zero => intro hb; rfl
    | succ j =>
      intro hb
      rw [matU_zero_succ, mat_zero_succ]
      have hlt : (j + 1) * costs.get EditType.DELETE < 2 ^ 32 := by
        refine lt_of_le_of_lt (Nat.mul_le_mul (le_refl _) (costs_get_del_le costs)) ?_
        rw [Nat.zero_add] at hb
        exact hb
      unfold umul
      rw [Nat.mod_eq_of_lt hlt]
  | succ i ihi =>
    intro j
    induction j with
    | zero =>
      intro hb
      rw [matU_succ_zero, mat_succ_zero]
      have hlt : (i + 1) * costs.get EditType.INSERT < 2 ^ 32 := by
        refine lt_of_le_of_lt (Nat.mul_le_mul (le_refl _) (costs_get_ins_le costs)) ?_
        rw [Nat.add_zero] at hb
        exact hb
      unfold umul
      rw [Nat.mod_eq_of_lt hlt]
    | succ j ihj =>
      intro hb
      have hE1 := ihi (j + 1)
        (lt_of_le_of_lt (Nat.mul_le_mul (by omega) (le_refl _)) hb)
      have hE2 := ihj
        (lt_of_le_of_lt (Nat.mul_le_mul (by omega) (le_refl _)) hb)
      have hE3 := ihi j
        (lt_of_le_of_lt (Nat.mul_le_mul (by omega) (le_refl _)) hb)
      have hu1 : uadd (edit_matrix costs fs ts i (j + 1)).cost (costs.get EditType.INSERT)
          = (edit_matrix costs fs ts i (j + 1)).cost + costs.get EditType.INSERT := by
        unfold uadd
        refine Nat.mod_eq_of_lt (lt_of_le_of_lt ?_ hb)
        refine le_trans (Nat.add_le_add (mat_cost_le costs fs ts i (j + 1))
          (costs_get_ins_le costs)) ?_
        exact le_of_eq (by ring)
      have hu2 : uadd (edit_matrix costs fs ts (i + 1) j).cost (costs.get EditType.DELETE)
          = (edit_matrix costs fs ts (i + 1) j).cost + costs.get EditType.DELETE := by
        unfold uadd
        refine Nat.mod_eq_of_lt (lt_of_le_of_lt ?_ hb)
        refine le_trans (Nat.add_le_add (mat_cost_le costs fs ts (i + 1) j)
          (costs_get_del_le costs)) ?_
        exact le_of_eq (by ring)
      have hu3 : uadd (edit_matrix costs fs ts i j).cost
            (costs.get (if fs.getD j nul = ts.getD i nul
                        then EditType.SKIP else EditType.REPLACE))
          = (edit_matrix costs fs ts i j).cost
            + costs.get (if fs.getD j nul = ts.getD i nul
                         then EditType.SKIP else EditType.REPLACE) := by
        unfold uadd
        refine Nat.mod_eq_of_lt (lt_of_le_of_lt ?_ hb)
        refine le_trans (Nat.add_le_add (mat_cost_le costs fs ts i j)
          (costs_get_rep_le costs _ _)) ?_
        refine le_trans (le_of_eq (by ring :
          (i + j) * costSum costs + costSum costs = (i + j + 1) * costSum costs)) ?_
        exact Nat.mul_le_mul (by omega) (le_refl _)
      rw [matU_interior, mat_interior, hE1, hE2, hE3, hu1, hu2, hu3]

theorem mat2_zero_succ (costs : EditCosts) (fs ts : List Char) (j : Nat) :
    edit_matrix2 costs fs ts 0 (j + 1)
      = ⟨⟨EditType.DELETE, nul⟩, (j + 1) * costs.get EditType.DELETE⟩ := rfl

theorem mat2_succ_zero (costs : EditCosts) (fs ts : List Char) (i : Nat) :
    edit_matrix2 costs fs ts (i + 1) 0
      = ⟨⟨EditType.INSERT, ts.getD i nul⟩, (i + 1) * costs.get EditType.INSERT⟩ := rfl

theorem mat2U_zero_succ (costs : EditCosts) (fs ts : List Char) (j : Nat) :
    edit_matrix2U costs fs ts 0 (j + 1)
      = ⟨⟨EditType.DELETE, nul⟩, umul (j + 1) (costs.get EditType.DELETE)⟩ := rfl

theorem mat2U_succ_zero (costs : EditCosts) (fs ts : List Char) (i : Nat) :
    edit_matrix2U costs fs ts (i + 1) 0
      = ⟨⟨EditType.INSERT, ts.getD i nul⟩, umul (i + 1) (costs.get EditType.INSERT)⟩ := rfl

theorem mat2U_interior (costs : EditCosts) (fs ts : List Char) (i j : Nat) :
    edit_matrix2U costs fs ts (i + 1) (j + 1)
      = ⟨⟨(chooseMax
            (uadd (edit_matrix2U costs fs ts i (j + 1)).cost (costs.get EditType.INSERT))
            (uadd (edit_matrix2U costs fs ts (i + 1) j).cost (costs.get EditType.DELETE))
            (uadd (edit_matrix2U costs fs ts i j).cost
              (costs.get (if fs.getD j nul = ts.getD i nul
                          then EditType.SKIP else EditType.REPLACE)))
            (if fs.getD j nul = ts.getD i nul
             then EditType.SKIP else EditType.REPLACE)).1,
          ts.getD i nul⟩,
         (chooseMax
            (uadd (edit_matrix2U costs fs ts i (j + 1)).cost (costs.get EditType.INSERT))
            (uadd (edit_matrix2U costs fs ts (i + 1) j).cost (costs.get EditType.DELETE))
            (uadd (edit_matrix2U costs fs ts i j).cost
              (costs.get (if fs.getD j nul = ts.getD i nul
                          then EditType.SKIP else EditType.REPLACE)))
            (if fs.getD j nul = ts.getD i nul
             then EditType.SKIP else EditType.REPLACE)).2⟩ := rfl

/-- Below the no-overflow bound the wrapped and the exact maximize matrix
agree. -/
theorem mat2U_eq_mat2 (costs : EditCosts) (fs ts : List Char) :
    ∀ i j, (i + j) * costSum costs < 2 ^ 32 →
      edit_matrix2U costs fs ts i j = edit_matrix2 costs fs ts i j := by
  intro i
  induction i with
  | zero =>
    intro j
    cases j with
    | zero => intro hb; rfl
    | succ j =>
      intro hb
      rw [mat2U_zero_succ, mat2_zero_succ]
      have hlt : (j + 1) * costs.get EditType.DELETE < 2 ^ 32 := by
        refine lt_of_le_of_lt (Nat.mul_le_mul (le_refl _) (costs_get_del_le costs)) ?_
        rw [Nat.zero_add] at hb
        exact hb
      unfold umul
      rw [Nat.mod_eq_of_lt hlt]
  | succ i ihi =>
    intro j
    induction j with
    | zero =>
      intro hb
      rw [mat2U_succ_zero, mat2_succ_zero]
      have hlt : (i + 1) * costs.get EditType.INSERT < 2 ^ 32 := by
        refine lt_of_le_of_lt (Nat.mul_le_mul (le_refl _) (costs_get_ins_le costs)) ?_
        rw [Nat.add_zero] at hb
        exact hb
      unfold umul
      rw [Nat.mod_eq_of_lt hlt]
    | succ j ihj =>
      intro hb
      have hE1 := ihi (j + 1)
        (lt_of_le_of_lt (Nat.mul_le_mul (by omega) (le_refl _)) hb)
      have hE2 := ihj
        (lt_of_le_of_lt (Nat.mul_le_mul (by omega) (le_refl _)) hb)
      have hE3 := ihi j
        (lt_of_le_of_lt (Nat.mul_le_mul (by omega) (le_refl _)) hb)
      have hu1 : uadd (edit_matrix2 costs fs ts i (j + 1)).cost (costs.get EditType.INSERT)
          = (edit_matrix2 costs fs ts i (j + 1)).cost + costs.get EditType.INSERT := by
        unfold uadd
        refine Nat.mod_eq_of_lt (lt_of_le_of_lt ?_ hb)
        refine le_trans (Nat.add_le_add (mat2_cost_le costs fs ts i (j + 1))
          (costs_get_ins_le costs)) ?_
        exact le_of_eq (by ring)
      have hu2 : uadd (edit_matrix2 costs fs ts (i + 1) j).cost (costs.get EditType.DELETE)
          = (edit_matrix2 costs fs ts (i + 1) j).cost + costs.get EditType.DELETE := by
        unfold uadd
        refine Nat.mod_eq_of_lt (lt_of_le_of_lt ?_ hb)
        refine le_trans (Nat.add_le_add (mat2_cost_le costs fs ts (i + 1) j)
          (costs_get_del_le costs)) ?_
        exact le_of_eq (by ring)
      have hu3 : uadd (edit_matrix2 costs fs ts i j).cost
            (costs.get (if fs.getD j nul = ts.getD i nul
                        then EditType.SKIP else EditType.REPLACE))
          = (edit_matrix2 costs fs ts i j).cost
            + costs.get (if fs.getD j nul = ts.getD i nul
                         then EditType.SKIP else EditType.REPLACE) := by
        unfold uadd
        refine Nat.mod_eq_of_lt (lt_of_le_of_lt ?_ hb)
        refine le_trans (Nat.add_le_add (mat2_cost_le costs fs ts i j)
          (costs_get_rep_le costs _ _)) ?_
        refine le_trans (le_of_eq (by ring :
          (i + j) * costSum costs + costSum costs = (i + j + 1) * costSum costs)) ?_
        exact Nat.mul_le_mul (by omega) (le_refl _)
      rw [mat2U_interior, mat2_interior, hE1, hE2, hE3, hu1, hu2, hu3]

/-- Below the no-overflow bound the wrapped run returns the same alignment
as the exact run. -/
theorem computeU_eq_compute (fs ts : List Char) (costs : EditCosts)
    (hb : (ts.length + fs.length) * costSum costs < 2 ^ 32) :
    compute_optimal_editsU fs ts costs = compute_optimal_edits fs ts costs := by
  have hread : readU costs fs ts = readV1 costs fs ts := by
    funext i j
    unfold readU readV1 matReadU matRead
    split_ifs with h
    · rw [matU_eq_mat costs fs ts i j
        (lt_of_le_of_lt (Nat.mul_le_mul (by omega) (le_refl _)) hb)]
    · rfl
  unfold compute_optimal_editsU compute_optimal_edits
  rw [hread]

theorem totalU_eq_total (fs ts : List Char) (costs : EditCosts)
    (hb : (ts.length + fs.length) * costSum costs < 2 ^ 32) :
    total_costU fs ts costs = total_cost fs ts costs := by
  unfold total_costU total_cost
  rw [computeU_eq_compute fs ts costs hb]

/-! ## Claim theorems -/

/-- Claim C2 (corrected): the identity alignment is all `Skip`s with total
cost `0` only for cost models with `cost(Skip) = 0`; for every such model,
`compute_optimal_edits (s, s, costs)` returns exactly one `Skip` per symbol
of `s` and the total configured cost of the alignment is `0`.  (For a
general cost model, as the counterexample shows, the result need not be made
of `Skip`s and its total cost is not `0`.) -/
theorem C2_amended (s : List Char) (costs : EditCosts)
    (h0 : costs.get EditType.SKIP = 0) (hs : s.length < 2 ^ 32) :
    compute_optimal_edits s s costs
      = some (s.map (fun c => ⟨EditType.SKIP, c, c⟩))
    ∧ total_cost s s costs = some 0 := by
  have hb := backtrace_diag costs s h0 hs s.length (s.length + s.length) []
    (le_refl _) (by omega)
  have hc : compute_optimal_edits s s costs
      = some (s.map (fun c => ⟨EditType.SKIP, c, c⟩)) := by
    unfold compute_optimal_edits
    rw [hb, List.take_length, List.append_nil]
  refine ⟨hc, ?_⟩
  unfold total_cost
  rw [hc]
  show some (sumCost costs (s.map (fun c => ⟨EditType.SKIP, c, c⟩))) = some 0
  unfold sumCost
  rw [List.map_map]
  have hz : ((fun e => costs.get e.type) ∘ fun c => (⟨EditType.SKIP, c, c⟩ : Edit))
      = fun _ => (0 : Nat) := by
    funext c
    show costs.get EditType.SKIP = 0
    exact h0
  rw [hz]
  simp

/-- Witness for C2 at a concrete string and a concrete zero-skip model. -/
theorem C2_witness :
    compute_optimal_edits ['a', 'b'] ['a', 'b'] ⟨0, 5, 7, 3⟩
      = some [⟨EditType.SKIP, 'a', 'a'⟩, ⟨EditType.SKIP, 'b', 'b'⟩]
    ∧ total_cost ['a', 'b'] ['a', 'b'] ⟨0, 5, 7, 3⟩ = some 0 := by
  have h := C2_amended ['a', 'b'] ⟨0, 5, 7, 3⟩ rfl (by norm_num)
  simpa using h

/-- Claim C3 counterexample: with the representable cost model
`{Skip: 1, Delete: 2^31, Insert: 15, Replace: 5}`, source `"aaa"`, target
`""`, the program emits three `Delete`s whose configured costs sum to
`3 * 2^31`, while the terminal cell stores that sum wrapped by the 32-bit
`unsigned` accumulation to `2^31` — the claimed equality fails. -/
theorem C3_counterexample :
    compute_optimal_editsU ['a', 'a', 'a'] [] ⟨1, 2 ^ 31, 15, 5⟩
      = some [⟨EditType.DELETE, 'a', nul⟩, ⟨EditType.DELETE, 'a', nul⟩,
              ⟨EditType.DELETE, 'a', nul⟩]
    ∧ total_costU ['a', 'a', 'a'] [] ⟨1, 2 ^ 31, 15, 5⟩ = some (3 * 2 ^ 31)
    ∧ (edit_matrixU ⟨1, 2 ^ 31, 15, 5⟩ ['a', 'a', 'a'] [] 0 3).cost = 2 ^ 31
    ∧ (3 * 2 ^ 31 : Nat) ≠ 2 ^ 31 := by
  decide

/-- Claim C3 (corrected): for every source, target and representable cost
model, the sum of the emitted operations' configured costs computed in the
program's own 32-bit unsigned arithmetic — that is, reduced modulo
`2 ^ 32` — equals the accumulated cost stored in the terminal cell
`Cell(targetLength, sourceLength)` of the wrapped matrix; the exact sum
equals the terminal cell exactly when it stays below `2 ^ 32`.  In
particular the backtrace always returns an alignment. -/
theorem C3_amended (fs ts : List Char) (costs : EditCosts) (_hv : costs.valid)
    (hm : fs.length < 2 ^ 32) (hn : ts.length < 2 ^ 32) :
    (total_costU fs ts costs).map (fun t => t % 2 ^ 32)
      = some ((edit_matrixU costs fs ts ts.length fs.length).cost) := by
  obtain ⟨l, hbt, hsum⟩ :=
    backtrace_specU costs fs ts hm hn (ts.length + fs.length) ts.length fs.length []
      (le_refl _) (le_refl _) (le_refl _)
  unfold total_costU compute_optimal_editsU
  rw [hbt]
  show some (sumCost costs (l ++ []) % 2 ^ 32) = _
  rw [List.append_nil, hsum]

/-- Witness for C3 at a concrete instance, both sides evaluated. -/
theorem C3_witness :
    (total_costU ['a', 'b'] ['b'] std_edit_costs).map (fun t => t % 2 ^ 32)
      = some ((edit_matrixU std_edit_costs ['a', 'b'] ['b'] 1 2).cost) := by
  have h := C3_amended ['a', 'b'] ['b'] std_edit_costs
    (by refine ⟨?_, ?_, ?_, ?_⟩ <;> decide) (by norm_num) (by norm_num)
  simpa using h

/-- Claim C8 (corrected): as long as no accumulated cost can reach
`2 ^ 32` — the bound `(n + m) * costSum < 2 ^ 32` forbids the `unsigned`
accumulation from wrapping — increasing `cost(Replace)` while holding the
other costs fixed never DEcreases the total cost of the returned alignment
under Minimize, and never decreases any accumulated cell cost — in
particular the terminal cell, the total of the most expensive alignment —
under Maximize.  Without the bound the wrapped arithmetic violates even the
Minimize direction, and the claim's `never increases under Maximize` is
refuted outright; both are shown by the counterexample. -/
theorem C8_amended (fs ts : List Char) (c c2 : EditCosts)
    (hskip : c.skip = c2.skip) (hdel : c.del = c2.del) (hins : c.ins = c2.ins)
    (hrep : c.rep ≤ c2.rep) (_hv : c.valid) (_hv2 : c2.valid)
    (hm : fs.length < 2 ^ 32) (hn : ts.length < 2 ^ 32)
    (hb : (ts.length + fs.length) * costSum c2 < 2 ^ 32)
    (t t2 : Nat) (ht : total_costU fs ts c = some t) (ht2 : total_costU fs ts c2 = some t2) :
    t ≤ t2
    ∧ ∀ i j, i ≤ ts.length → j ≤ fs.length →
        (edit_matrix2U c fs ts i j).cost ≤ (edit_matrix2U c2 fs ts i j).cost := by
  have hS : costSum c ≤ costSum c2 := by
    unfold costSum
    omega
  have hbc : (ts.length + fs.length) * costSum c < 2 ^ 32 :=
    lt_of_le_of_lt (Nat.mul_le_mul (le_refl _) hS) hb
  constructor
  · rw [totalU_eq_total fs ts c hbc] at ht
    rw [totalU_eq_total fs ts c2 hb] at ht2
    have h1 := total_cost_eq_cell fs ts c hm hn
    have h2 := total_cost_eq_cell fs ts c2 hm hn
    rw [ht] at h1
    rw [ht2] at h2
    have e1 : t = (edit_matrix c fs ts ts.length fs.length).cost := Option.some_injective _ h1
    have e2 : t2 = (edit_matrix c2 fs ts ts.length fs.length).cost := Option.some_injective _ h2
    rw [e1, e2]
    exact mat_cost_mono fs ts c c2 hskip hdel hins hrep ts.length fs.length
  · intro i j hi hj
    have hbij : (i + j) * costSum c2 < 2 ^ 32 :=
      lt_of_le_of_lt (Nat.mul_le_mul (by omega) (le_refl _)) hb
    have hbij2 : (i + j) * costSum c < 2 ^ 32 :=
      lt_of_le_of_lt (Nat.mul_le_mul (le_refl _) hS) hbij
    rw [mat2U_eq_mat2 c fs ts i j hbij2, mat2U_eq_mat2 c2 fs ts i j hbij]
    exact mat2_cost_mono fs ts c c2 hskip hdel hins hrep i j

/-- Witness for C8 at a concrete input and pair of cost models below the
no-overflow bound. -/
theorem C8_witness :
    (2 : Nat) ≤ 2
    ∧ (edit_matrix2U ⟨1, 1, 1, 2⟩ ['a'] ['b'] 1 1).cost
        ≤ (edit_matrix2U ⟨1, 1, 1, 5⟩ ['a'] ['b'] 1 1).cost := by
  have h := C8_amended ['a'] ['b'] ⟨1, 1, 1, 2⟩ ⟨1, 1, 1, 5⟩ rfl rfl rfl
    (by norm_num) (by refine ⟨?_, ?_, ?_, ?_⟩ <;> norm_num)
    (by refine ⟨?_, ?_, ?_, ?_⟩ <;> norm_num) (by norm_num) (by norm_num)
    (by decide) 2 2 (by decide) (by decide)
  exact ⟨h.1, h.2 1 1 (by norm_num) (by norm_num)⟩


/-- Claim C9 (confirmed): `compute_optimal_edits` is deterministic — two runs
on equal source strings, equal target strings and equal cost models return
the identical operation sequence; the embedding is a pure function of exactly
those three inputs (the C++ reads no other state). -/
theorem C9_deterministic (fs1 fs2 ts1 ts2 : List Char) (c1 c2 : EditCosts)
    (hf : fs1 = fs2) (ht : ts1 = ts2) (hc : c1 = c2) :
    compute_optimal_edits fs1 ts1 c1 = compute_optimal_edits fs2 ts2 c2 := by
  rw [hf, ht, hc]

/-- Witness for C9 at a concrete pair of runs. -/
theorem C9_witness :
    compute_optimal_edits ['a'] ['b'] std_edit_costs
      = compute_optimal_edits ['a'] ['b'] std_edit_costs :=
  C9_deterministic ['a'] ['a'] ['b'] ['b'] std_edit_costs std_edit_costs rfl rfl rfl

/-- Claim C5 counterexample: with candidate costs `ins = del = 5`,
`rep = 7` under Minimize, the claim's preference order picks `Insert`, but
the code picks `Delete`; with `del = rep = 5` (and `ins` not strictly best)
the claim picks `Delete` but the code picks the replace candidate; the same
happens under Maximize. -/
theorem C5_counterexample :
    chooseMin 5 5 7 EditType.REPLACE = (EditType.DELETE, 5)
    ∧ chooseMin 9 5 5 EditType.REPLACE = (EditType.REPLACE, 5)
    ∧ chooseMax 5 5 3 EditType.REPLACE = (EditType.DELETE, 5)
    ∧ chooseMax 2 5 5 EditType.REPLACE = (EditType.REPLACE, 5) := by
  decide

/-- Claim C5 (corrected): the fixed preference order on equal costs is the
reverse of the claimed one — the replace/skip candidate beats `Delete`, and
both beat `Insert`: an `Insert` candidate that merely ties one alternative
never wins, and a `Delete` candidate that ties the replace/skip candidate
never wins, under both objectives. -/
theorem C5_amended (a b c : Nat) (t : EditType)
    (ht : t = EditType.SKIP ∨ t = EditType.REPLACE) :
    ((a = b ∨ a = c) →
      (chooseMin a b c t).1 ≠ EditType.INSERT ∧ (chooseMax a b c t).1 ≠ EditType.INSERT)
    ∧ (b = c →
      (chooseMin a b c t).1 ≠ EditType.DELETE ∧ (chooseMax a b c t).1 ≠ EditType.DELETE) := by
  unfold chooseMin chooseMax
  rcases ht with h | h <;> subst h <;>
    refine ⟨fun hie => ?_, fun hdr => ?_⟩ <;> split_ifs <;> simp_all <;> omega

/-- Witness for C5 at concrete tied costs. -/
theorem C5_witness :
    ((chooseMin 4 4 9 EditType.SKIP).1 ≠ EditType.INSERT
      ∧ (chooseMax 4 4 9 EditType.SKIP).1 ≠ EditType.INSERT)
    ∧ ((chooseMin 7 4 4 EditType.SKIP).1 ≠ EditType.DELETE
      ∧ (chooseMax 7 4 4 EditType.SKIP).1 ≠ EditType.DELETE) :=
  ⟨(C5_amended 4 4 9 EditType.SKIP (Or.inl rfl)).1 (Or.inl rfl),
   (C5_amended 7 4 4 EditType.SKIP (Or.inl rfl)).2 rfl⟩

/-- Claim C7 counterexample: a `Skip` line prints only the source symbol —
`edit_rep` on `Skip 'a' 'a'` yields `"SKP a"`, not the claimed
`"SKP a a"` with both symbols. -/
theorem C7_counterexample :
    edit_rep ⟨EditType.SKIP, 'a', 'a'⟩ = "SKP a"
    ∧ edit_rep ⟨EditType.SKIP, 'a', 'a'⟩ ≠ "SKP a a" := by
  exact ⟨rfl, by decide⟩

/-- Claim C7 (corrected): the program prints exactly one line per operation:
the three-letter tag, then the symbols — an `Insert` line omits the source
symbol, a `Delete` line and also a `Skip` line omit the target symbol, and
only a `Replace` line prints both; the maximize variant prints the tag and
its single stored character for every kind. -/
theorem C7_amended (e : Edit) (es : List Edit) (e2 : Edit2) :
    (e.type = EditType.INSERT →
      edit_rep e = ((edit_type_name e.type).push ' ').push e.to_ch)
    ∧ ((e.type = EditType.DELETE ∨ e.type = EditType.SKIP) →
      edit_rep e = ((edit_type_name e.type).push ' ').push e.from_ch)
    ∧ (e.type = EditType.REPLACE →
      edit_rep e = (((((edit_type_name e.type).push ' ').push e.from_ch).push ' ').push e.to_ch))
    ∧ (program_output es).length = es.length
    ∧ edit_line2 e2 = ((edit_type_name e2.type).push ' ').push e2.ch := by
  obtain ⟨t, fc, tc⟩ := e
  refine ⟨?_, ?_, ?_, es.length_map _, rfl⟩ <;>
    · intro h
      cases t <;> simp_all [edit_rep]

/-- Witness for C7 at a concrete operation of each relevant kind. -/
theorem C7_witness :
    edit_rep ⟨EditType.INSERT, nul, 'b'⟩
        = ((edit_type_name EditType.INSERT).push ' ').push 'b'
    ∧ edit_rep ⟨EditType.SKIP, 'a', 'a'⟩
        = ((edit_type_name EditType.SKIP).push ' ').push 'a'
    ∧ edit_rep ⟨EditType.REPLACE, 'a', 'b'⟩
        = (((((edit_type_name EditType.REPLACE).push ' ').push 'a').push ' ').push 'b') :=
  ⟨(C7_amended ⟨EditType.INSERT, nul, 'b'⟩ [] ⟨EditType.SKIP, 'x'⟩).1 rfl,
   (C7_amended ⟨EditType.SKIP, 'a', 'a'⟩ [] ⟨EditType.SKIP, 'x'⟩).2.1 (Or.inr rfl),
   (C7_amended ⟨EditType.REPLACE, 'a', 'b'⟩ [] ⟨EditType.SKIP, 'x'⟩).2.2.1 rfl⟩

/-- Claim C10 (confirmed): the unsigned expressions `to_idx - 1 + 1` and
`from_idx - 1 + 1` wrap around modulo `2 ^ 32` and cancel back to `to_idx`
and `from_idx` (also at index 0, where the subtraction wraps to
`2 ^ 32 - 1`), so the three predecessor reads of the recurrence hit exactly
the cells `(to_idx, from_idx + 1)`, `(to_idx + 1, from_idx)` and
`(to_idx, from_idx)`, all inside the `(n + 1) × (m + 1)` allocation; in the
row-by-row embedding `edit_matrix` each of those cells is defined (written)
before the cell `(to_idx + 1, from_idx + 1)` that reads them. -/
theorem C10_index_wraparound (costs : EditCosts) (fs ts : List Char) (to_idx from_idx : Nat)
    (h1 : to_idx < ts.length) (h2 : from_idx < fs.length)
    (hm : fs.length < 2 ^ 32) (hn : ts.length < 2 ^ 32) :
    uadd (usub to_idx 1) 1 = to_idx ∧ uadd (usub from_idx 1) 1 = from_idx
    ∧ matRead costs fs ts (uadd (usub to_idx 1) 1) (from_idx + 1)
        = some (edit_matrix costs fs ts to_idx (from_idx + 1))
    ∧ matRead costs fs ts (to_idx + 1) (uadd (usub from_idx 1) 1)
        = some (edit_matrix costs fs ts (to_idx + 1) from_idx)
    ∧ matRead costs fs ts (uadd (usub to_idx 1) 1) (uadd (usub from_idx 1) 1)
        = some (edit_matrix costs fs ts to_idx from_idx) := by
  have e1 : uadd (usub to_idx 1) 1 = to_idx := uadd_usub_one _ (lt_trans h1 hn)
  have e2 : uadd (usub from_idx 1) 1 = from_idx := uadd_usub_one _ (lt_trans h2 hm)
  rw [e1, e2]
  refine ⟨rfl, rfl, ?_, ?_, ?_⟩ <;> (unfold matRead; rw [if_pos]) <;> omega

/-- Witness for C10 at concrete cursor positions inside a concrete matrix. -/
theorem C10_witness :
    uadd (usub 0 1) 1 = 0 ∧ uadd (usub 1 1) 1 = 1
    ∧ matRead std_edit_costs ['a', 'b'] ['c'] (uadd (usub 0 1) 1) (1 + 1)
        = some (edit_matrix std_edit_costs ['a', 'b'] ['c'] 0 (1 + 1))
    ∧ matRead std_edit_costs ['a', 'b'] ['c'] (0 + 1) (uadd (usub 1 1) 1)
        = some (edit_matrix std_edit_costs ['a', 'b'] ['c'] (0 + 1) 1)
    ∧ matRead std_edit_costs ['a', 'b'] ['c'] (uadd (usub 0 1) 1) (uadd (usub 1 1) 1)
        = some (edit_matrix std_edit_costs ['a', 'b'] ['c'] 0 1) :=
  C10_index_wraparound std_edit_costs ['a', 'b'] ['c'] 0 1
    (by norm_num) (by norm_num) (by norm_num) (by norm_num)

/-- Claim C1 (code bug in the maximize variant): its backtrace starts the
cursor at `(n, m)` but reads `edit_matrix[to_idx + 1][from_idx + 1]`, so its
very first read is at `(n + 1, m + 1)`, outside the `(n + 1) × (m + 1)`
allocation — here, cell `(2, 1)` of a `2 × 1` matrix — and the modelled run
fails; the minimize variant's backtrace stays inside the matrix and
terminates on the same input. -/
theorem C1_maximize_backtrace_reads_outside :
    compute_optimal_edits2 [] ['a'] std_edit_costs2 = none
    ∧ matRead2 std_edit_costs2 [] ['a'] 2 1 = none
    ∧ compute_optimal_edits [] ['a'] std_edit_costs = some [⟨EditType.INSERT, nul, 'a'⟩] := by
  decide

/-- Claim C4 (code bug in the maximize variant): on source `"a"`, target
`""`, the maximize variant's backtrace immediately reads cell `(1, 2)` of its
`1 × 2` matrix — out of range, so no alignment with the claimed operation
counts is produced — while the minimize variant returns one `Delete`, whose
counts (`1` operation that is not `Insert`, `0` that are not `Delete`) match
the claim. -/
theorem C4_maximize_backtrace_fails :
    compute_optimal_edits2 ['a'] [] std_edit_costs2 = none
    ∧ compute_optimal_edits ['a'] [] std_edit_costs = some [⟨EditType.DELETE, 'a', nul⟩]
    ∧ ([(⟨EditType.DELETE, 'a', nul⟩ : Edit)].filter
        (fun e => e.type ≠ EditType.INSERT)).length = 1
    ∧ ([(⟨EditType.DELETE, 'a', nul⟩ : Edit)].filter
        (fun e => e.type ≠ EditType.DELETE)).length = 0 := by
  decide

/-- Claim C6 (code bug in the maximize variant): its row-0 initialization
stores `EditNode (DELETE, 0, ...)` — the sentinel character, not the deleted
source symbol `source[j - 1]` — so cell `(0, 1)` for source `"a"` carries the
`NUL` character instead of `'a'`; the minimize variant stores
`EditNode (DELETE, from[from_idx], 0, ...)` as the claim describes. -/
theorem C6_maximize_init_drops_deleted_symbol :
    edit_matrix2 std_edit_costs2 ['a'] [] 0 1 = ⟨⟨EditType.DELETE, nul⟩, 10⟩
    ∧ nul ≠ 'a'
    ∧ edit_matrix std_edit_costs ['a'] [] 0 1 = ⟨⟨EditType.DELETE, 'a', nul⟩, 10⟩ := by
  decide

/-- Claim C2 counterexample: aligning `"a"` with itself under the cost model
`{Skip: 100, Delete: 1, Insert: 1, Replace: 100}` returns an `Insert`
followed by a `Delete` — not one `Skip` per symbol — with total cost `2`,
not `0`. -/
theorem C2_counterexample :
    compute_optimal_edits ['a'] ['a'] ⟨100, 1, 1, 100⟩
      = some [⟨EditType.INSERT, nul, 'a'⟩, ⟨EditType.DELETE, 'a', 'a'⟩]
    ∧ total_cost ['a'] ['a'] ⟨100, 1, 1, 100⟩ = some 2
    ∧ total_cost ['a'] ['a'] ⟨100, 1, 1, 100⟩ ≠ some 0 := by
  decide

/-- Claim C8 counterexample, two parts.  (a) Under Maximize, raising
`cost(Replace)` from `2` to `5` (other costs fixed) raises the terminal
accumulated cost for source `"a"`, target `"b"` from `2` to `5` — the total
increases, contradicting the claim's `never increases` direction — and the
maximize variant's backtrace returns no alignment at all there.  (b) With
the 32-bit wraparound of the `unsigned` accumulation even the Minimize total
can DECREASE when `cost(Replace)` increases: with `Skip = 1`,
`Delete = Insert = 2^31 + 500` on `"ab" → "cd"`, raising `cost(Replace)`
from `2^30` to `3 * 2^30` switches the returned alignment from two inserts
and two deletes (exact configured total `2^33 + 2000`) to insert, delete,
replace (exact total `2^32 + 1000 + 3 * 2^30`, which is smaller). -/
theorem C8_counterexample :
    ((edit_matrix2U ⟨1, 1, 1, 2⟩ ['a'] ['b'] 1 1).cost = 2
      ∧ (edit_matrix2U ⟨1, 1, 1, 5⟩ ['a'] ['b'] 1 1).cost = 5
      ∧ compute_optimal_edits2 ['a'] ['b'] ⟨1, 1, 1, 2⟩ = none)
    ∧ (total_costU ['a', 'b'] ['c', 'd'] ⟨1, 2 ^ 31 + 500, 2 ^ 31 + 500, 2 ^ 30⟩
        = some (2 ^ 33 + 2000)
      ∧ total_costU ['a', 'b'] ['c', 'd'] ⟨1, 2 ^ 31 + 500, 2 ^ 31 + 500, 3 * 2 ^ 30⟩
        = some (2 ^ 32 + 1000 + 3 * 2 ^ 30)
      ∧ (2 ^ 32 + 1000 + 3 * 2 ^ 30 : Nat) < 2 ^ 33 + 2000) := by
  decide

end Optedit
